import Mathlib

/-!
A shallow embedding of the X.509 trust-store subsystem of `bell`
(`src/main/io/X509Bundle.cpp`): the bundle loader `init`, the verification
callback `crtVerifyCallback` with its binary search over entry subject
names, and the signature check `crtCheckCertificate`.

Byte buffers are modelled as `List Nat` (each element a `uint8_t` value).
The external mbedtls crypto primitives (key parsing, digest, signature
verification) are modelled as oracle parameters, since the library is an
external collaborator that is consumed, not reimplemented.
-/

namespace X509Bundle

/-- Big-endian 16-bit read `buf[i] << 8 | buf[i+1]` from `uint8_t` storage;
the `% 256` records that C stores bytes, so values are reduced mod 256. -/
def u16At (buf : List Nat) (i : Nat) : Nat :=
  (buf.getD i 0 % 256) * 256 + buf.getD (i + 1) 0 % 256

/-- Byte-wise three-way comparison of two lists, shorter-prefix first.
`lexOrd a b` follows the unsigned byte comparison of C `memcmp`. -/
def lexOrd : List Nat → List Nat → Ordering
  | [], [] => Ordering.eq
  | [], _ :: _ => Ordering.lt
  | _ :: _, [] => Ordering.gt
  | a :: as, b :: bs =>
      if a < b then Ordering.lt
      else if b < a then Ordering.gt
      else lexOrd as bs

/-- Models `memcmp(a, b, n)`: compare the first `n` bytes of each buffer.
When both lists hold at least `n` elements this is exactly the C
semantics; a list shorter than `n` (a read past the C buffer end, which is
undefined) is resolved as comparing smaller by exhaustion. -/
def memcmpBytes (a b : List Nat) (n : Nat) : Ordering :=
  lexOrd (a.take n) (b.take n)

/-- `MBEDTLS_X509_BADCERT_NOT_TRUSTED` -/
def BADCERT_NOT_TRUSTED : Nat := 0x08

/-- `MBEDTLS_X509_BADCERT_BAD_MD` -/
def BADCERT_BAD_MD : Nat := 0x4000

/-- `MBEDTLS_ERR_X509_FATAL_ERROR` -/
def ERR_X509_FATAL_ERROR : Int := -0x3000

/-- Models `*flags & ~MBEDTLS_X509_BADCERT_BAD_MD` on a `uint32_t`:
reduce to 32 bits, then clear bit 14 (0x4000) by subtracting it when set. -/
def maskBadMd (flags : Nat) : Nat :=
  let f := flags % 4294967296
  f - 16384 * (f / 16384 % 2)

/-- The trust-store globals of `X509Bundle.cpp`: `bundleBytes` (the owned
copy of the bundle), `s_crt_bundle.crts` (the index of entries, modelled as
a list of offsets into `bundleBytes`; `none` models `crts == NULL`),
`s_crt_bundle.num_certs`, and `s_should_verify_certs`. -/
structure StoreState where
  bundleBytes : List Nat
  crts : Option (List Nat)
  numCerts : Nat
  shouldVerifyCerts : Bool
deriving Repr, DecidableEq

/-- The initial global state: empty buffer, `crts == NULL`, count 0,
verification disabled. -/
def initialStore : StoreState :=
  { bundleBytes := [], crts := none, numCerts := 0, shouldVerifyCerts := false }

/-- The two `std::runtime_error` messages `init` can throw. -/
inductive LoadError where
  | invalidBundle
  | allocationFailure
deriving Repr, DecidableEq

/-- Result of a load: success, or one of the two thrown errors. -/
inductive LoadResult where
  | ok
  | error (e : LoadError)
deriving Repr, DecidableEq

/-- The validation loop of `init` (lines 176-190): walk `n` declared
entries from cursor `c`; before each entry require its 4 header bytes to
lie within `len`, then advance by `4 + name_len + key_len`; after the last
entry require the cursor not to exceed `len`.  Returns the recorded entry
offsets (`crts[i]`), or `none` where the C code throws. -/
def walkEntries (buf : List Nat) (len : Nat) : Nat → Nat → Option (List Nat)
  | 0, c => if len < c then none else some []
  | n + 1, c =>
      if len < c + 4 then none
      else
        match walkEntries buf len n (c + 4 + u16At buf c + u16At buf (c + 2)) with
        | none => none
        | some rest => some (c :: rest)

/-- Models `bell::X509Bundle::init` (lines 155-201).  `allocOk` is the
outcome of the external `calloc`.  Mutation order follows the source: the
size check and the allocation happen before anything is written; the
candidate bytes are then copied into `bundleBytes` (lines 168-169) BEFORE
the entries are validated, so a validation failure leaves the flag, index
and count untouched but the byte buffer already overwritten; on success
index, count are replaced and `s_should_verify_certs` is set. -/
def init (s : StoreState) (input : List Nat) (allocOk : Bool) :
    LoadResult × StoreState :=
  if input.length < 2 + 4 then (LoadResult.error LoadError.invalidBundle, s)
  else
    let numCerts := u16At input 0
    if allocOk = false then (LoadResult.error LoadError.allocationFailure, s)
    else
      let s1 := { s with bundleBytes := input }
      match walkEntries input input.length numCerts 2 with
      | none => (LoadResult.error LoadError.invalidBundle, s1)
      | some offs =>
          (LoadResult.ok,
           { bundleBytes := input, crts := some offs, numCerts := numCerts,
             shouldVerifyCerts := true })

/-- Outcomes of the external mbedtls primitives used by
`crtCheckCertificate` on a given certificate and candidate key:
`parseRet` from `mbedtls_pk_parse_public_key`, `canDo` from
`mbedtls_pk_can_do` (key family supports the declared signature
algorithm), `mdRet` from `mbedtls_md`, `verifyRet` from
`mbedtls_pk_verify_ext`.  0 is success for the `Int`-valued calls. -/
structure CertCheckEnv where
  parseRet : Int
  canDo : Bool
  mdRet : Int
  verifyRet : Int

/-- Models `bell::X509Bundle::crtCheckCertificate` (lines 36-79): parse the
candidate public key, check algorithm-family compatibility, hash the
to-be-signed region, verify the signature; the first nonzero/false step
jumps to cleanup and its code is returned (`-1` for the can-do check). -/
def crtCheckCertificate (e : CertCheckEnv) : Int :=
  if e.parseRet ≠ 0 then e.parseRet
  else if e.canDo = false then -1
  else if e.mdRet ≠ 0 then e.mdRet
  else e.verifyRet

/-- The binary-search loop of `crtVerifyCallback` (lines 110-129).  In the
source `start`, `end`, `middle` are C `int`s; `start` begins at 0 and only
increases, so it is a `Nat` here, while `end` can reach -1 and stays an
`Int`.  The C code computes `middle = (end - start) / 2` once before the
loop (where `start == 0`) and `middle = (start + end) / 2` at the bottom;
both equal `(start + end) / 2` at every test, which is recomputed here at
the top of each iteration.  `fuel` bounds the iterations; every call below
supplies more fuel than the search range's size, which the search never
exhausts (each step shrinks the range), so the `fuel = 0` branch is
unreachable from the call sites. -/
def bsearchAux (cmp : Nat → Ordering) : Nat → Nat → Int → Option Nat
  | 0, _, _ => none
  | fuel + 1, start, e =>
      if (start : Int) ≤ e then
        let middle := (start + e.toNat) / 2
        match cmp middle with
        | Ordering.eq => some middle
        | Ordering.lt => bsearchAux cmp fuel start ((middle : Int) - 1)
        | Ordering.gt => bsearchAux cmp fuel (middle + 1) e
      else none

/-- `name_len` of the entry at offset `off`: `crts[i][0] << 8 | crts[i][1]`. -/
def entryNameLen (buf : List Nat) (off : Nat) : Nat := u16At buf off

/-- `key_len` of the entry at offset `off`: `crts[i][2] << 8 | crts[i][3]`. -/
def entryKeyLen (buf : List Nat) (off : Nat) : Nat := u16At buf (off + 2)

/-- The `subject_name` region of the entry at offset `off`:
`name_len` bytes starting at `crts[i] + CRT_HEADER_OFFSET`. -/
def entryName (buf : List Nat) (off : Nat) : List Nat :=
  (buf.drop (off + 4)).take (entryNameLen buf off)

/-- The `public_key` region of the entry at offset `off`: `key_len` bytes
starting at `crts[i] + CRT_HEADER_OFFSET + name_len`. -/
def entryKey (buf : List Nat) (off : Nat) : List Nat :=
  (buf.drop (off + 4 + entryNameLen buf off)).take (entryKeyLen buf off)

/-- The per-probe comparison of the search (lines 116-119):
`memcmp(child->issuer_raw.p, crts[middle] + CRT_HEADER_OFFSET, name_len)`
with `name_len` read from the candidate entry's header. -/
def entryCompare (buf : List Nat) (offs : List Nat) (issuer : List Nat)
    (i : Nat) : Ordering :=
  memcmpBytes issuer (buf.drop (offs.getD i 0 + 4))
    (entryNameLen buf (offs.getD i 0))

/-- The whole lookup of lines 110-129: binary search from
`start = 0, end = num_certs - 1`, returning the matched index. -/
def lookupCert (s : StoreState) (offs : List Nat) (issuer : List Nat) :
    Option Nat :=
  bsearchAux (entryCompare s.bundleBytes offs issuer) (s.numCerts + 1) 0
    ((s.numCerts : Int) - 1)

/-- Return code plus the value left in `*flags`. -/
structure VerifyOutcome where
  ret : Int
  flagsOut : Nat
deriving Repr, DecidableEq

/-- Models `bell::X509Bundle::crtVerifyCallback` (lines 87-150).  `env`
gives the external crypto outcomes for this certificate against any
candidate key bytes.  Mask the weak-digest bit; defer (return 0, flags
untouched) unless the masked flags are exactly `BADCERT_NOT_TRUSTED`;
fail fatally if `crts == NULL`; binary-search the bundle; on a match run
`crtCheckCertificate` on the matched entry's key region; on success zero
the flags and return 0, otherwise return `MBEDTLS_ERR_X509_FATAL_ERROR`
with the flags untouched. -/
def crtVerifyCallback (s : StoreState) (env : List Nat → CertCheckEnv)
    (issuer : List Nat) (flags : Nat) : VerifyOutcome :=
  let flagsFiltered := maskBadMd flags
  if flagsFiltered ≠ BADCERT_NOT_TRUSTED then { ret := 0, flagsOut := flags }
  else
    match s.crts with
    | none => { ret := ERR_X509_FATAL_ERROR, flagsOut := flags }
    | some offs =>
        match lookupCert s offs issuer with
        | some middle =>
            let off := offs.getD middle 0
            let ret := crtCheckCertificate (env (entryKey s.bundleBytes off))
            if ret = 0 then { ret := 0, flagsOut := 0 }
            else { ret := ERR_X509_FATAL_ERROR, flagsOut := flags }
        | none => { ret := ERR_X509_FATAL_ERROR, flagsOut := flags }

/-- Cursor position after walking `i` entries from cursor `c`, advancing by
`4 + name_len + key_len` read at each entry's header (the loop of
`init`, expressed as a total function for specification). -/
def advanceCursor (buf : List Nat) (c : Nat) : Nat → Nat
  | 0 => c
  | i + 1 => advanceCursor buf (c + 4 + u16At buf c + u16At buf (c + 2)) i

/-- Big-endian 16-bit encoding of `v` (faithful for `v < 65536`). -/
def u16Bytes (v : Nat) : List Nat := [v / 256 % 256, v % 256]

/-- One entry of the bundle format: `name_len, key_len, subject_name,
public_key`. -/
def encodeEntry (e : List Nat × List Nat) : List Nat :=
  u16Bytes e.1.length ++ u16Bytes e.2.length ++ e.1 ++ e.2

/-- The bundle format of §6: `num_certs` then the entries, contiguous. -/
def encodeBundle (es : List (List Nat × List Nat)) : List Nat :=
  u16Bytes es.length ++ (es.map encodeEntry).flatten

/-- Size bounds under which the 16-bit fields of an entry encode
faithfully. -/
def entryFits (e : List Nat × List Nat) : Prop :=
  e.1.length < 65536 ∧ e.2.length < 65536

instance (e : List Nat × List Nat) : Decidable (entryFits e) := by
  unfold entryFits; infer_instance

/-- The operations of the subsystem that can touch the trust-store
globals. -/
inductive Op where
  | load (input : List Nat) (allocOk : Bool)
  | verify (env : List Nat → CertCheckEnv) (issuer : List Nat) (flags : Nat)
  | attach

/-- State transition of each operation: `init` may replace the store;
`crtVerifyCallback` writes only through its `flags` out-parameter and
`attach` only configures the ssl config and the dummy certificate, so
neither touches the trust-store globals. -/
def applyOp (s : StoreState) : Op → StoreState
  | Op.load input allocOk => (init s input allocOk).2
  | Op.verify _ _ _ => s
  | Op.attach => s

/-- Models `bell::X509Bundle::shouldVerify` (lines 214-216). -/
def shouldVerify (s : StoreState) : Bool := s.shouldVerifyCerts

/-! ### Facts about the byte comparison -/

theorem lexOrd_self (a : List Nat) : lexOrd a a = Ordering.eq := by
  induction a with
  | nil => rfl
  | cons x as ih => simp [lexOrd, ih]

/-- Truncating the left list to the right list's length preserves a
strict `lt` comparison: the first difference (or the left list's
exhaustion) occurs within the compared range. -/
theorem lexOrd_take_lt : ∀ (a b : List Nat), lexOrd a b = Ordering.lt →
    lexOrd (a.take b.length) b = Ordering.lt
  | [], b, h => by
      cases b with
      | nil => simp [lexOrd] at h
      | cons y bs => simp [lexOrd]
  | x :: as, [], h => by simp [lexOrd] at h
  | x :: as, y :: bs, h => by
      simp only [List.length_cons, List.take_succ_cons, lexOrd] at h ⊢
      by_cases h1 : x < y
      · simp [h1]
      · simp only [if_neg h1] at h ⊢
        by_cases h2 : y < x
        · simp [h2] at h
        · simp only [if_neg h2] at h ⊢
          exact lexOrd_take_lt as bs h

/-- If `b` compares strictly below `a` and is not a prefix of `a`, then
comparing `a` truncated to `b`'s length against `b` still yields `gt`:
the first difference occurs strictly inside both lists. -/
theorem lexOrd_take_gt : ∀ (a b : List Nat), lexOrd b a = Ordering.lt →
    ¬ b <+: a → lexOrd (a.take b.length) b = Ordering.gt
  | _, [], _, hp => absurd List.nil_prefix hp
  | [], x :: bs, h, _ => by simp [lexOrd] at h
  | y :: as, x :: bs, h, hp => by
      simp only [List.length_cons, List.take_succ_cons, lexOrd] at h ⊢
      by_cases h1 : x < y
      · simp [h1, Nat.lt_asymm h1]
      · simp only [if_neg h1] at h
        by_cases h2 : y < x
        · simp [h2] at h
        · have hxy : x = y := by omega
          subst hxy
          simp only [if_neg h2] at h
          have hp2 : ¬ bs <+: as := by
            intro hpre
            exact hp (List.cons_prefix_cons.mpr ⟨rfl, hpre⟩)
          simp only [if_neg h1, if_neg h2]
          exact lexOrd_take_gt as bs h hp2

theorem lexOrd_trans : ∀ (a b c : List Nat), lexOrd a b = Ordering.lt →
    lexOrd b c = Ordering.lt → lexOrd a c = Ordering.lt
  | _, b, [], _, h2 => by cases b <;> simp [lexOrd] at h2
  | [], _, _ :: _, _, _ => by simp [lexOrd]
  | x :: as, b, z :: cs, h1, h2 => by
      cases b with
      | nil => simp [lexOrd] at h1
      | cons y bs =>
        simp only [lexOrd] at h1 h2 ⊢
        by_cases hxy : x < y
        · by_cases hyz : y < z
          · simp [Nat.lt_trans hxy hyz]
          · simp only [if_neg hyz] at h2
            by_cases hzy : z < y
            · simp [hzy] at h2
            · have hyz2 : y = z := by omega
              subst hyz2
              simp [hxy]
        · simp only [if_neg hxy] at h1
          by_cases hyx : y < x
          · simp [hyx] at h1
          · simp only [if_neg hyx] at h1
            have hxy2 : x = y := by omega
            subst hxy2
            by_cases hyz : x < z
            · simp [hyz]
            · simp only [if_neg hyz] at h2 ⊢
              by_cases hzy : z < x
              · simp [hzy] at h2
              · simp only [if_neg hzy] at h2 ⊢
                exact lexOrd_trans as bs cs h1 h2

/-! ### Correctness of the binary-search loop -/

/-- If the probe at `j` compares equal, all earlier probes compare `gt`
and all later in-range probes compare `lt`, the loop finds `j`. -/
theorem bsearchAux_eq_some (cmp : Nat → Ordering) (j : Nat) :
    ∀ (fuel start : Nat) (e : Int), start ≤ j → (j : Int) ≤ e →
    (∀ i : Nat, i < j → cmp i = Ordering.gt) → cmp j = Ordering.eq →
    (∀ i : Nat, j < i → (i : Int) ≤ e → cmp i = Ordering.lt) →
    (e + 1 - start).toNat ≤ fuel →
    bsearchAux cmp fuel start e = some j := by
  intro fuel
  induction fuel with
  | zero =>
      intro start e h1 h2 _ _ _ hf
      exfalso
      omega
  | succ fuel ih =>
      intro start e h1 h2 hgt heq hlt hf
      have hse : (start : Int) ≤ e := by omega
      have hm1 : start ≤ (start + e.toNat) / 2 := by omega
      have hm2 : (start + e.toNat) / 2 ≤ e.toNat := by omega
      have hm3 : (((start + e.toNat) / 2 : Nat) : Int) ≤ e := by omega
      simp only [bsearchAux, if_pos hse]
      rcases Nat.lt_trichotomy ((start + e.toNat) / 2) j with hmj | hmj | hmj
      · rw [hgt _ hmj]
        exact ih ((start + e.toNat) / 2 + 1) e (by omega) h2 hgt heq hlt (by omega)
      · rw [hmj, heq]
      · rw [hlt _ hmj hm3]
        refine ih start ((((start + e.toNat) / 2 : Nat) : Int) - 1) (by omega)
          (by omega) hgt heq ?_ (by omega)
        intro i hji hie
        exact hlt i hji (by omega)

/-- If every in-range probe compares `lt`, the loop ends not-found. -/
theorem bsearchAux_eq_none_lt (cmp : Nat → Ordering) (hmax : Int)
    (h : ∀ i : Nat, (i : Int) ≤ hmax → cmp i = Ordering.lt) :
    ∀ (fuel start : Nat) (e : Int), e ≤ hmax →
    (e + 1 - start).toNat ≤ fuel →
    bsearchAux cmp fuel start e = none := by
  intro fuel
  induction fuel with
  | zero => intro start e _ _; rfl
  | succ fuel ih =>
      intro start e he hf
      by_cases hse : (start : Int) ≤ e
      · have hm2 : (start + e.toNat) / 2 ≤ e.toNat := by omega
        have hm3 : (((start + e.toNat) / 2 : Nat) : Int) ≤ hmax := by omega
        simp only [bsearchAux, if_pos hse]
        rw [h _ hm3]
        exact ih start ((((start + e.toNat) / 2 : Nat) : Int) - 1)
          (by omega) (by omega)
      · simp only [bsearchAux, if_neg hse]

/-- If every in-range probe compares `gt`, the loop ends not-found. -/
theorem bsearchAux_eq_none_gt (cmp : Nat → Ordering) (hmax : Int)
    (h : ∀ i : Nat, (i : Int) ≤ hmax → cmp i = Ordering.gt) :
    ∀ (fuel start : Nat) (e : Int), e ≤ hmax →
    (e + 1 - start).toNat ≤ fuel →
    bsearchAux cmp fuel start e = none := by
  intro fuel
  induction fuel with
  | zero => intro start e _ _; rfl
  | succ fuel ih =>
      intro start e he hf
      by_cases hse : (start : Int) ≤ e
      · have hm1 : start ≤ (start + e.toNat) / 2 := by omega
        have hm2 : (start + e.toNat) / 2 ≤ e.toNat := by omega
        have hm3 : (((start + e.toNat) / 2 : Nat) : Int) ≤ hmax := by omega
        simp only [bsearchAux, if_pos hse]
        rw [h _ hm3]
        exact ih ((start + e.toNat) / 2 + 1) e he (by omega)
      · simp only [bsearchAux, if_neg hse]

/-! ### Characterisation of the load-time walk -/

theorem advanceCursor_succ (buf : List Nat) :
    ∀ (i c : Nat), advanceCursor buf c (i + 1) =
      advanceCursor buf c i + 4 + u16At buf (advanceCursor buf c i) +
        u16At buf (advanceCursor buf c i + 2) := by
  intro i
  induction i with
  | zero => intro c; rfl
  | succ i ih => intro c; exact ih (c + 4 + u16At buf c + u16At buf (c + 2))

/-- The validation loop succeeds exactly when every declared entry's
header fits and the final cursor stays within the buffer, and then the
recorded offsets are the successive cursor positions. -/
theorem walkEntries_char (buf : List Nat) (len : Nat) :
    ∀ (n c : Nat),
    walkEntries buf len n c =
      if (∀ i, i < n → advanceCursor buf c i + 4 ≤ len) ∧
          advanceCursor buf c n ≤ len
      then some ((List.range n).map (advanceCursor buf c)) else none := by
  intro n
  induction n with
  | zero =>
      intro c
      by_cases h : c ≤ len
      · rw [show walkEntries buf len 0 c = if len < c then none else some []
              from rfl,
            if_neg (by omega),
            if_pos ⟨fun i hi => absurd hi (Nat.not_lt_zero i), h⟩]
        simp
      · rw [show walkEntries buf len 0 c = if len < c then none else some []
              from rfl,
            if_pos (by omega), if_neg (fun hh => h hh.2)]
  | succ n ih =>
      intro c
      simp only [walkEntries]
      rw [ih (c + 4 + u16At buf c + u16At buf (c + 2))]
      by_cases h4 : len < c + 4
      · rw [if_pos h4, if_neg]
        intro hcond
        have h0 := hcond.1 0 (by omega)
        simp only [advanceCursor] at h0
        omega
      · rw [if_neg h4]
        by_cases hc : (∀ i, i <  n →
            advanceCursor buf (c + 4 + u16At buf c + u16At buf (c + 2)) i + 4
              ≤ len) ∧
            advanceCursor buf (c + 4 + u16At buf c + u16At buf (c + 2)) n ≤ len
        · rw [if_pos hc]
          have hcond : (∀ i, i < n + 1 → advanceCursor buf c i + 4 ≤ len) ∧
              advanceCursor buf c (n + 1) ≤ len := by
            constructor
            · intro i hi
              cases i with
              | zero =>
                  simp only [advanceCursor]
                  omega
              | succ i => exact hc.1 i (by omega)
            · exact hc.2
          rw [if_pos hcond]
          have hmap : (List.range (n + 1)).map (advanceCursor buf c) =
              c :: (List.range n).map
                (advanceCursor buf (c + 4 + u16At buf c + u16At buf (c + 2))) := by
            rw [List.range_succ_eq_map]
            simp only [List.map_cons, List.map_map]
            rfl
          rw [hmap]
        · rw [if_neg hc, if_neg]
          intro hcond
          refine hc ⟨fun i hi => hcond.1 (i + 1) (by omega), hcond.2⟩

/-! ### Reading back an encoded bundle -/

/-- Total encoded size of a list of entries. -/
def sumEntryLen (es : List (List Nat × List Nat)) : Nat :=
  (es.map (fun e => 4 + e.1.length + e.2.length)).sum

theorem encodeEntry_length (e : List Nat × List Nat) :
    (encodeEntry e).length = 4 + e.1.length + e.2.length := by
  simp [encodeEntry, u16Bytes]
  omega

theorem encodeBundle_length (es : List (List Nat × List Nat)) :
    (encodeBundle es).length = 2 + sumEntryLen es := by
  induction es with
  | nil => rfl
  | cons e es ih =>
      simp only [encodeBundle, u16Bytes, List.map_cons, List.flatten_cons,
        List.length_append, List.length_cons, sumEntryLen, List.map,
        List.sum_cons, encodeEntry_length] at ih ⊢
      omega

theorem getD_append_shift (p m : List Nat) (k : Nat) :
    (p ++ m).getD (p.length + k) 0 = m.getD k 0 := by
  rw [List.getD_append_right _ _ _ _ (by omega)]
  congr 1
  omega

theorem drop_append_shift (p m : List Nat) (k : Nat) :
    (p ++ m).drop (p.length + k) = m.drop k := by
  induction p with
  | nil => simp
  | cons a p ih =>
      simp only [List.cons_append, List.length_cons]
      rw [show p.length + 1 + k = p.length + k + 1 from by omega,
        List.drop_succ_cons, ih]

theorem u16At_append_shift (p m : List Nat) (k : Nat) :
    u16At (p ++ m) (p.length + k) = u16At m k := by
  unfold u16At
  rw [getD_append_shift, show p.length + k + 1 = p.length + (k + 1) from by
    omega, getD_append_shift]

/-- Reading the entry encoded at offset `p.length` of
`p ++ (encodeEntry e ++ r)` recovers its fields. -/
theorem reads_at_entry (p : List Nat) (e : List Nat × List Nat)
    (r : List Nat) (hn : e.1.length < 65536) (hk : e.2.length < 65536) :
    entryNameLen (p ++ (encodeEntry e ++ r)) p.length = e.1.length ∧
    entryKeyLen (p ++ (encodeEntry e ++ r)) p.length = e.2.length ∧
    ((p ++ (encodeEntry e ++ r)).drop (p.length + 4)).take e.1.length =
      e.1 ∧
    entryKey (p ++ (encodeEntry e ++ r)) p.length = e.2 := by
  have hname : entryNameLen (p ++ (encodeEntry e ++ r)) p.length =
      e.1.length := by
    unfold entryNameLen
    rw [show p.length = p.length + 0 from by omega, u16At_append_shift]
    simp only [encodeEntry, u16Bytes, List.cons_append, List.nil_append]
    unfold u16At
    simp only [List.getD_cons_zero, List.getD_cons_succ]
    omega
  have hkey : entryKeyLen (p ++ (encodeEntry e ++ r)) p.length =
      e.2.length := by
    unfold entryKeyLen
    rw [show p.length + 2 = p.length + 2 from rfl, u16At_append_shift]
    simp only [encodeEntry, u16Bytes, List.cons_append, List.nil_append]
    unfold u16At
    simp only [List.getD_cons_zero, List.getD_cons_succ]
    omega
  have hdrop4 : (p ++ (encodeEntry e ++ r)).drop (p.length + 4) =
      e.1 ++ (e.2 ++ r) := by
    rw [drop_append_shift]
    simp only [encodeEntry, u16Bytes, List.cons_append, List.nil_append,
      List.append_assoc]
    rfl
  refine ⟨hname, hkey, ?_, ?_⟩
  · rw [hdrop4, List.take_left]
  · unfold entryKey
    rw [hname, show p.length + 4 + e.1.length =
      p.length + (4 + e.1.length) from by omega, drop_append_shift, hkey]
    have : (encodeEntry e ++ r).drop (4 + e.1.length) = e.2 ++ r := by
      have hsplit : encodeEntry e ++ r =
          (([e.1.length / 256 % 256, e.1.length % 256,
             e.2.length / 256 % 256, e.2.length % 256] ++ e.1)) ++
            (e.2 ++ r) := by
        simp [encodeEntry, u16Bytes, List.append_assoc]
      rw [hsplit, show 4 + e.1.length =
        ([e.1.length / 256 % 256, e.1.length % 256,
          e.2.length / 256 % 256, e.2.length % 256] ++ e.1).length from by
          simp; omega, List.drop_left]
    rw [this, List.take_left]

/-- Reading the `i`-th entry of an encoded bundle appended after any
prefix `p` recovers that entry's fields. -/
theorem encode_entry_facts :
    ∀ (es : List (List Nat × List Nat)) (p : List Nat),
    (∀ e ∈ es, entryFits e) →
    ∀ i (hi : i < es.length),
      entryNameLen (p ++ (es.map encodeEntry).flatten)
          (p.length + sumEntryLen (es.take i)) = (es.get ⟨i, hi⟩).1.length ∧
      entryKeyLen (p ++ (es.map encodeEntry).flatten)
          (p.length + sumEntryLen (es.take i)) = (es.get ⟨i, hi⟩).2.length ∧
      ((p ++ (es.map encodeEntry).flatten).drop
          (p.length + sumEntryLen (es.take i) + 4)).take
          (es.get ⟨i, hi⟩).1.length = (es.get ⟨i, hi⟩).1 ∧
      entryKey (p ++ (es.map encodeEntry).flatten)
          (p.length + sumEntryLen (es.take i)) = (es.get ⟨i, hi⟩).2
  | [], _, _, i, hi => absurd hi (by simp)
  | e :: es, p, hfit, 0, hi => by
      obtain ⟨hn, hk⟩ := hfit e (by simp)
      have hfact := reads_at_entry p e ((es.map encodeEntry).flatten) hn hk
      simp only [List.map_cons, List.flatten_cons, List.take_zero,
        sumEntryLen, List.map_nil, List.sum_nil, Nat.add_zero,
        List.get_cons_zero]
      exact hfact
  | e :: es, p, hfit, i + 1, hi => by
      have hfit2 : ∀ x ∈ es, entryFits x := fun x hx => hfit x (by simp [hx])
      have hi2 : i < es.length := by
        simpa using Nat.lt_of_succ_lt_succ hi
      have ih := encode_entry_facts es (p ++ encodeEntry e) hfit2 i hi2
      have hidx : ∀ j : Nat,
          p.length + sumEntryLen ((e :: es).take (i + 1)) + j =
          (p ++ encodeEntry e).length + sumEntryLen (es.take i) + j := by
        intro j
        simp only [List.take_succ_cons, sumEntryLen, List.map_cons,
          List.sum_cons, List.length_append, encodeEntry_length]
        omega
      have hbuf : p ++ ((e :: es).map encodeEntry).flatten =
          (p ++ encodeEntry e) ++ (es.map encodeEntry).flatten := by
        simp only [List.map_cons, List.flatten_cons, List.append_assoc]
      have hidx0 : p.length + sumEntryLen ((e :: es).take (i + 1)) =
          (p ++ encodeEntry e).length + sumEntryLen (es.take i) := by
        have := hidx 0
        omega
      rw [hbuf, hidx0, show ((e :: es).get ⟨i + 1, hi⟩) = es.get ⟨i, hi2⟩
        from rfl]
      exact ih

theorem sumEntryLen_take_succ :
    ∀ (es : List (List Nat × List Nat)) (i : Nat) (hi : i < es.length),
    sumEntryLen (es.take (i + 1)) = sumEntryLen (es.take i) +
      (4 + (es.get ⟨i, hi⟩).1.length + (es.get ⟨i, hi⟩).2.length)
  | e :: es, 0, _ => by simp [sumEntryLen]
  | e :: es, i + 1, hi => by
      have hi2 : i < es.length := by simpa using Nat.lt_of_succ_lt_succ hi
      simp only [List.take_succ_cons, sumEntryLen, List.map_cons,
        List.sum_cons, List.get_cons_succ]
      have := sumEntryLen_take_succ es i hi2
      unfold sumEntryLen at this
      omega

theorem sumEntryLen_take_le (es : List (List Nat × List Nat)) (i : Nat) :
    sumEntryLen (es.take i) ≤ sumEntryLen es := by
  conv_rhs => rw [← List.take_append_drop i es]
  unfold sumEntryLen
  simp only [List.map_append, List.sum_append]
  omega

/-- The cursor positions of the walk over an encoded bundle are the
partial sums of the encoded entry sizes. -/
theorem advanceCursor_encode (es : List (List Nat × List Nat))
    (hfit : ∀ e ∈ es, entryFits e) :
    ∀ i, i ≤ es.length →
      advanceCursor (encodeBundle es) 2 i = 2 + sumEntryLen (es.take i) := by
  intro i
  induction i with
  | zero => intro _; simp [advanceCursor, sumEntryLen]
  | succ i ih =>
      intro hi
      have hi2 : i < es.length := by omega
      have hfacts := encode_entry_facts es (u16Bytes es.length) hfit i hi2
      have hp2 : (u16Bytes es.length).length = 2 := by simp [u16Bytes]
      rw [hp2] at hfacts
      have hbuf : encodeBundle es =
          u16Bytes es.length ++ (es.map encodeEntry).flatten := rfl
      rw [advanceCursor_succ, ih (by omega)]
      rw [hbuf]
      have h1 := hfacts.1
      have h2 := hfacts.2.1
      unfold entryNameLen at h1
      unfold entryKeyLen at h2
      rw [h1, h2, sumEntryLen_take_succ es i hi2]
      omega

theorem sumEntryLen_pos (es : List (List Nat × List Nat))
    (hne : 0 < es.length) : 4 ≤ sumEntryLen es := by
  cases es with
  | nil => simp at hne
  | cons e es => simp [sumEntryLen]; omega

theorem u16At_encodeBundle_zero (es : List (List Nat × List Nat))
    (hN : es.length < 65536) : u16At (encodeBundle es) 0 = es.length := by
  show u16At (u16Bytes es.length ++ (es.map encodeEntry).flatten) 0 =
    es.length
  simp only [u16Bytes, List.cons_append, u16At, List.getD_cons_zero,
    List.getD_cons_succ]
  omega

/-- The entry offsets that a successful load of an encoded bundle
records: the partial sums of the encoded entry sizes, from offset 2. -/
def offsListOf (es : List (List Nat × List Nat)) : List Nat :=
  (List.range es.length).map (fun i => 2 + sumEntryLen (es.take i))

/-- The store state left by a successful load of an encoded bundle. -/
def bundleStateOf (es : List (List Nat × List Nat)) : StoreState :=
  { bundleBytes := encodeBundle es, crts := some (offsListOf es),
    numCerts := es.length, shouldVerifyCerts := true }

/-- Loading an encoded non-empty bundle succeeds and installs the
partial-sum offsets, the entry count, and the verification flag. -/
theorem init_encodeBundle (s : StoreState) (es : List (List Nat × List Nat))
    (hfit : ∀ e ∈ es, entryFits e) (hN : es.length < 65536)
    (hne : 0 < es.length) :
    init s (encodeBundle es) true =
      (LoadResult.ok,
       { bundleBytes := encodeBundle es,
         crts := some ((List.range es.length).map
           (fun i => 2 + sumEntryLen (es.take i))),
         numCerts := es.length, shouldVerifyCerts := true }) := by
  have hlen : (encodeBundle es).length = 2 + sumEntryLen es :=
    encodeBundle_length es
  have hge : 4 ≤ sumEntryLen es := sumEntryLen_pos es hne
  have hwalk : walkEntries (encodeBundle es) (encodeBundle es).length
      (u16At (encodeBundle es) 0) 2 =
      some ((List.range es.length).map
        (fun i => 2 + sumEntryLen (es.take i))) := by
    rw [u16At_encodeBundle_zero es hN, walkEntries_char, if_pos]
    · apply congrArg
      apply List.map_congr_left
      intro i hi
      exact advanceCursor_encode es hfit i (le_of_lt (List.mem_range.mp hi))
    · constructor
      · intro i hi
        rw [advanceCursor_encode es hfit i (le_of_lt hi),
          hlen]
        have hstep := sumEntryLen_take_succ es i hi
        have hle := sumEntryLen_take_le es (i + 1)
        omega
      · rw [advanceCursor_encode es hfit es.length (le_refl _),
          List.take_length, hlen]
  unfold init
  rw [if_neg (by omega), if_neg (by simp)]
  simp only [hwalk]
  rw [u16At_encodeBundle_zero es hN]

/-- `init_encodeBundle`, stated through `bundleStateOf`. -/
theorem init_encodeBundle_state (s : StoreState)
    (es : List (List Nat × List Nat)) (hfit : ∀ e ∈ es, entryFits e)
    (hN : es.length < 65536) (hne : 0 < es.length) :
    init s (encodeBundle es) true = (LoadResult.ok, bundleStateOf es) :=
  init_encodeBundle s es hfit hN hne

theorem getD_range_map (f : Nat → Nat) (n j : Nat) (hj : j < n) :
    ((List.range n).map f).getD j 0 = f j := by
  rw [List.getD_eq_getElem _ _ (by simpa using hj)]
  simp [hj]

/-- On a loaded encoded bundle, the probe comparison at index `i` is the
truncated byte comparison of the issuer against the `i`-th name. -/
theorem entryCompare_encode (es : List (List Nat × List Nat))
    (hfit : ∀ e ∈ es, entryFits e) (issuer : List Nat) (i : Nat)
    (hi : i < es.length) :
    entryCompare (encodeBundle es) (offsListOf es) issuer i =
      lexOrd (issuer.take (es.get ⟨i, hi⟩).1.length) (es.get ⟨i, hi⟩).1 := by
  unfold entryCompare memcmpBytes offsListOf
  rw [getD_range_map _ _ _ hi]
  have hfacts := encode_entry_facts es (u16Bytes es.length) hfit i hi
  have hp2 : (u16Bytes es.length).length = 2 := by simp [u16Bytes]
  rw [hp2] at hfacts
  rw [show encodeBundle es =
    u16Bytes es.length ++ (es.map encodeEntry).flatten from rfl]
  rw [hfacts.1, hfacts.2.2.1]

/-! ### Helper facts for the claim theorems -/

/-- Follows the claim's words for C5: a matching bundle entry was found
and its key verifies the certificate's signature. -/
def matchedKeyVerifies (s : StoreState) (env : List Nat → CertCheckEnv)
    (issuer : List Nat) : Bool :=
  match s.crts with
  | none => false
  | some offs =>
      match lookupCert s offs issuer with
      | none => false
      | some middle =>
          if crtCheckCertificate (env (entryKey s.bundleBytes
              (offs.getD middle 0))) = 0
          then true else false

theorem init_flag_monotone (s : StoreState) (input : List Nat) (a : Bool)
    (h : s.shouldVerifyCerts = true) :
    (init s input a).2.shouldVerifyCerts = true := by
  unfold init
  by_cases h1 : input.length < 2 + 4
  · rw [if_pos h1]; exact h
  · rw [if_neg h1]
    by_cases h2 : a = false
    · rw [if_pos h2]; exact h
    · rw [if_neg h2]
      cases hw : walkEntries input input.length (u16At input 0) 2 with
      | none => simp only [hw]; exact h
      | some offs => simp only [hw]

theorem init_ok_flag (s : StoreState) (input : List Nat) (a : Bool)
    (h : (init s input a).1 = LoadResult.ok) :
    (init s input a).2.shouldVerifyCerts = true := by
  unfold init at h ⊢
  by_cases h1 : input.length < 2 + 4
  · rw [if_pos h1] at h; exact absurd h (by simp)
  · rw [if_neg h1] at h ⊢
    by_cases h2 : a = false
    · rw [if_pos h2] at h; exact absurd h (by simp)
    · rw [if_neg h2] at h ⊢
      cases hw : walkEntries input input.length (u16At input 0) 2 with
      | none => simp [hw] at h
      | some offs => simp only [hw]

theorem foldl_preserves_flag :
    ∀ (ops : List Op) (s : StoreState), s.shouldVerifyCerts = true →
    (ops.foldl applyOp s).shouldVerifyCerts = true
  | [], _, h => h
  | op :: ops, s, h => by
      rw [List.foldl_cons]
      refine foldl_preserves_flag ops (applyOp s op) ?_
      cases op with
      | load input a => exact init_flag_monotone s input a h
      | verify env issuer flags => exact h
      | attach => exact h

/-! ### The claims -/

/-- C1 (code-bug evidence): `init` copies the candidate bytes into the
global `bundleBytes` before validating the entries, so a reload that
fails validation (`InvalidBundle`) leaves the previously active store's
byte buffer overwritten (only the index, the count and the flag survive),
and a lookup that succeeded before the failed reload now fails because the
retained index reads the overwritten bytes. -/
theorem failed_reload_overwrites_buffer :
    init ((init initialStore [0, 1, 0, 1, 0, 1, 65, 7] true).2)
        [0, 1, 0, 255, 0, 0] true =
      (LoadResult.error LoadError.invalidBundle,
       { bundleBytes := [0, 1, 0, 255, 0, 0], crts := some [2],
         numCerts := 1, shouldVerifyCerts := true }) ∧
    (init initialStore [0, 1, 0, 1, 0, 1, 65, 7] true).2 =
      { bundleBytes := [0, 1, 0, 1, 0, 1, 65, 7], crts := some [2],
        numCerts := 1, shouldVerifyCerts := true } ∧
    lookupCert (init initialStore [0, 1, 0, 1, 0, 1, 65, 7] true).2
        [2] [65] = some 0 ∧
    lookupCert (init ((init initialStore [0, 1, 0, 1, 0, 1, 65, 7] true).2)
        [0, 1, 0, 255, 0, 0] true).2 [2] [65] = none := by
  decide

/-- C3: the probe comparison reads exactly the candidate entry's
`name_len` bytes, so an issuer that strictly extends the stored subject
name still compares equal. -/
theorem compare_truncates_to_entry_name (buf offs issuer : List Nat)
    (i : Nat)
    (_hlong : entryNameLen buf (offs.getD i 0) < issuer.length)
    (hpre : issuer.take (entryNameLen buf (offs.getD i 0)) =
      entryName buf (offs.getD i 0)) :
    entryCompare buf offs issuer i = Ordering.eq := by
  unfold entryCompare memcmpBytes
  rw [show (buf.drop (offs.getD i 0 + 4)).take
      (entryNameLen buf (offs.getD i 0)) =
      entryName buf (offs.getD i 0) from rfl, hpre]
  exact lexOrd_self _

theorem compare_truncates_to_entry_name_witness :
    entryNameLen [0, 1, 0, 1, 0, 1, 65, 7] ([2].getD 0 0) <
      ([65, 66] : List Nat).length ∧
    entryCompare [0, 1, 0, 1, 0, 1, 65, 7] [2] [65, 66] 0 = Ordering.eq :=
  ⟨by decide,
   compare_truncates_to_entry_name [0, 1, 0, 1, 0, 1, 65, 7] [2] [65, 66] 0
     (by decide) (by decide)⟩

/-- C5: with the masked flags exactly "untrusted", the callback clears the
flags and returns success exactly when a matching entry is found and its
key verifies; in every other case it returns the fatal error and leaves
the flags word as it was — no partial trust. -/
theorem verify_all_or_nothing (s : StoreState)
    (env : List Nat → CertCheckEnv) (issuer : List Nat) (flags : Nat)
    (h : maskBadMd flags = BADCERT_NOT_TRUSTED) :
    crtVerifyCallback s env issuer flags =
      if matchedKeyVerifies s env issuer
      then { ret := 0, flagsOut := 0 }
      else { ret := ERR_X509_FATAL_ERROR, flagsOut := flags } := by
  unfold crtVerifyCallback matchedKeyVerifies
  rw [if_neg (not_not_intro h)]
  cases hc : s.crts with
  | none => simp
  | some offs =>
      cases hl : lookupCert s offs issuer with
      | none => simp [hl]
      | some middle =>
          by_cases hr : crtCheckCertificate (env (entryKey s.bundleBytes
              (offs.getD middle 0))) = 0
          · simp [hl, hr]
          · simp [hl, hr]

theorem verify_all_or_nothing_witness :
    maskBadMd 8 = BADCERT_NOT_TRUSTED ∧
    crtVerifyCallback
      { bundleBytes := [0, 1, 0, 1, 0, 1, 65, 7], crts := some [2],
        numCerts := 1, shouldVerifyCerts := true }
      (fun _ => ⟨0, true, 0, 0⟩) [65] 8 = { ret := 0, flagsOut := 0 } := by
  refine ⟨by decide, ?_⟩
  rw [verify_all_or_nothing _ _ _ _ (by decide)]
  decide

/-- C7: whenever the masked flags are not exactly "untrusted", the
callback returns 0 with the caller's flags word unchanged, whatever the
store, the crypto outcomes and the issuer are — no lookup or signature
check can influence the result. -/
theorem verify_defers_when_not_exactly_untrusted (s : StoreState)
    (env : List Nat → CertCheckEnv) (issuer : List Nat) (flags : Nat)
    (h : maskBadMd flags ≠ BADCERT_NOT_TRUSTED) :
    crtVerifyCallback s env issuer flags = { ret := 0, flagsOut := flags } := by
  unfold crtVerifyCallback
  rw [if_pos h]

theorem verify_defers_witness :
    maskBadMd 12 ≠ BADCERT_NOT_TRUSTED ∧
    crtVerifyCallback
      { bundleBytes := [0, 1, 0, 1, 0, 1, 65, 7], crts := some [2],
        numCerts := 1, shouldVerifyCerts := true }
      (fun _ => ⟨0, true, 0, 0⟩) [65] 12 = { ret := 0, flagsOut := 12 } :=
  ⟨by decide,
   verify_defers_when_not_exactly_untrusted _ _ [65] 12 (by decide)⟩

/-- C8: the signature check returns 0 iff the key parses, the key family
supports the declared signature algorithm, the digest computes and the
signature verifies, in that order; the first failing step determines the
result regardless of the outcomes of the later steps. -/
theorem check_certificate_steps (p m v : Int) (c : Bool) :
    (crtCheckCertificate ⟨p, c, m, v⟩ = 0 ↔
      p = 0 ∧ c = true ∧ m = 0 ∧ v = 0) ∧
    (p ≠ 0 → crtCheckCertificate ⟨p, c, m, v⟩ = p) ∧
    crtCheckCertificate ⟨0, false, m, v⟩ = -1 ∧
    (m ≠ 0 → crtCheckCertificate ⟨0, true, m, v⟩ = m) ∧
    crtCheckCertificate ⟨0, true, 0, v⟩ = v := by
  by_cases hp : p = 0 <;> by_cases hc : c = true <;> by_cases hm : m = 0 <;>
    simp_all [crtCheckCertificate]

theorem check_certificate_steps_witness :
    crtCheckCertificate ⟨3, true, 5, 7⟩ = 3 ∧
    crtCheckCertificate ⟨0, true, 5, 7⟩ = 5 :=
  ⟨(check_certificate_steps 3 5 7 true).2.1 (by decide),
   (check_certificate_steps 0 5 7 true).2.2.2.1 (by decide)⟩

/-- C9: the deferral test runs before the loaded-bundle test: with
`crts == NULL` the callback still returns 0 with the flags unchanged for
every certificate whose masked flags are not exactly "untrusted"; the
fatal no-bundle error is reached exactly when they are. -/
theorem deferral_precedes_bundle_check (s : StoreState)
    (env : List Nat → CertCheckEnv) (issuer : List Nat) (flags : Nat)
    (h : s.crts = none) :
    crtVerifyCallback s env issuer flags =
      if maskBadMd flags = BADCERT_NOT_TRUSTED
      then { ret := ERR_X509_FATAL_ERROR, flagsOut := flags }
      else { ret := 0, flagsOut := flags } := by
  unfold crtVerifyCallback
  by_cases hm : maskBadMd flags = BADCERT_NOT_TRUSTED
  · rw [if_neg (not_not_intro hm), h, if_pos hm]
  · rw [if_pos hm, if_neg hm]

theorem deferral_precedes_bundle_check_witness :
    initialStore.crts = none ∧
    crtVerifyCallback initialStore (fun _ => ⟨0, true, 0, 0⟩) [65] 0 =
      { ret := 0, flagsOut := 0 } := by
  refine ⟨rfl, ?_⟩
  rw [deferral_precedes_bundle_check initialStore _ [65] 0 rfl]
  decide

/-- C10: once a load has succeeded, `shouldVerify` stays true across every
later sequence of loads (successful or failed), verifications and
attaches: failed loads never reset the flag and no operation clears it. -/
theorem trust_state_monotone (s0 : StoreState) (input : List Nat)
    (a : Bool) (ops : List Op)
    (h : (init s0 input a).1 = LoadResult.ok) :
    shouldVerify (ops.foldl applyOp (init s0 input a).2) = true :=
  foldl_preserves_flag ops _ (init_ok_flag s0 input a h)

theorem trust_state_monotone_witness :
    (init initialStore [0, 1, 0, 1, 0, 1, 65, 7] true).1 = LoadResult.ok ∧
    shouldVerify (List.foldl applyOp
      (init initialStore [0, 1, 0, 1, 0, 1, 65, 7] true).2
      [Op.load [0, 1, 0, 255, 0, 0] true, Op.attach,
       Op.load [0, 0] true]) = true :=
  ⟨by decide,
   trust_state_monotone initialStore [0, 1, 0, 1, 0, 1, 65, 7] true
     [Op.load [0, 1, 0, 255, 0, 0] true, Op.attach, Op.load [0, 0] true]
     (by decide)⟩

/-- C6 counterexample: the two-byte buffer `[0, 0]` declares zero entries,
whose walk ends exactly at the buffer length (cursor 2 = length 2), so the
claim's success clause applies to it; yet `init` rejects it as
`InvalidBundle` because of the minimum-size check. -/
theorem parse_empty_wellformed_rejected :
    u16At [0, 0] 0 = 0 ∧ advanceCursor [0, 0] 2 0 = 2 ∧
    ([0, 0] : List Nat).length = 2 ∧
    init initialStore [0, 0] true =
      (LoadResult.error LoadError.invalidBundle, initialStore) := by
  decide

/-- C6 (amended): a buffer shorter than 6 bytes, or one where an entry's
4 header bytes would run past the end, or where the final cursor exceeds
the length, is rejected as `InvalidBundle`; every bundle of at least 6
bytes whose declared entries fit and end exactly at the buffer length is
accepted, with the `i`-th recorded offset reached by advancing the cursor
by `4 + name_len + key_len` per entry from offset 2. -/
theorem parse_validates_structure (s : StoreState) (buf : List Nat) :
    (buf.length < 6 →
      init s buf true = (LoadResult.error LoadError.invalidBundle, s)) ∧
    (6 ≤ buf.length →
      (∃ i, i < u16At buf 0 ∧ buf.length < advanceCursor buf 2 i + 4) →
      (init s buf true).1 = LoadResult.error LoadError.invalidBundle) ∧
    (6 ≤ buf.length →
      (∀ i, i < u16At buf 0 → advanceCursor buf 2 i + 4 ≤ buf.length) →
      buf.length < advanceCursor buf 2 (u16At buf 0) →
      (init s buf true).1 = LoadResult.error LoadError.invalidBundle) ∧
    (6 ≤ buf.length →
      (∀ i, i < u16At buf 0 → advanceCursor buf 2 i + 4 ≤ buf.length) →
      advanceCursor buf 2 (u16At buf 0) = buf.length →
      init s buf true =
        (LoadResult.ok,
         { bundleBytes := buf,
           crts := some ((List.range (u16At buf 0)).map
             (advanceCursor buf 2)),
           numCerts := u16At buf 0, shouldVerifyCerts := true })) := by
  refine ⟨?_, ?_, ?_, ?_⟩
  · intro hlen
    unfold init
    rw [if_pos (by omega)]
  · intro hlen hex
    unfold init
    rw [if_neg (by omega), if_neg (by simp)]
    have hcond : ¬((∀ i, i < u16At buf 0 →
        advanceCursor buf 2 i + 4 ≤ buf.length) ∧
        advanceCursor buf 2 (u16At buf 0) ≤ buf.length) := by
      intro hc
      obtain ⟨i, hi, hviol⟩ := hex
      have := hc.1 i hi
      omega
    simp only [walkEntries_char, if_neg hcond]
  · intro hlen hheaders hfinal
    unfold init
    rw [if_neg (by omega), if_neg (by simp)]
    have hcond : ¬((∀ i, i < u16At buf 0 →
        advanceCursor buf 2 i + 4 ≤ buf.length) ∧
        advanceCursor buf 2 (u16At buf 0) ≤ buf.length) := by
      intro hc
      have := hc.2
      omega
    simp only [walkEntries_char, if_neg hcond]
  · intro hlen hheaders hfinal
    unfold init
    rw [if_neg (by omega), if_neg (by simp)]
    simp only [walkEntries_char,
      if_pos (And.intro hheaders (le_of_eq hfinal))]

theorem parse_validates_structure_witness :
    init initialStore [0, 1, 0, 1, 0, 1, 65, 7] true =
      (LoadResult.ok,
       { bundleBytes := [0, 1, 0, 1, 0, 1, 65, 7], crts := some [2],
         numCerts := 1, shouldVerifyCerts := true }) := by
  rw [(parse_validates_structure initialStore
    [0, 1, 0, 1, 0, 1, 65, 7]).2.2.2 (by decide) (by decide) (by decide)]
  decide

/-- Reduction of the callback when the masked flags are exactly
"untrusted", a bundle is loaded and the search finds index `middle`. -/
theorem crtVerifyCallback_found (s : StoreState) (offs : List Nat)
    (env : List Nat → CertCheckEnv) (issuer : List Nat) (flags : Nat)
    (middle : Nat) (hm : maskBadMd flags = BADCERT_NOT_TRUSTED)
    (hc : s.crts = some offs)
    (hl : lookupCert s offs issuer = some middle) :
    crtVerifyCallback s env issuer flags =
      if crtCheckCertificate (env (entryKey s.bundleBytes
          (offs.getD middle 0))) = 0
      then { ret := 0, flagsOut := 0 }
      else { ret := ERR_X509_FATAL_ERROR, flagsOut := flags } := by
  unfold crtVerifyCallback
  rw [if_neg (not_not_intro hm), hc]
  simp only [hl]

/-- Reduction of the callback when the masked flags are exactly
"untrusted", a bundle is loaded and the search finds nothing. -/
theorem crtVerifyCallback_notfound (s : StoreState) (offs : List Nat)
    (env : List Nat → CertCheckEnv) (issuer : List Nat) (flags : Nat)
    (hm : maskBadMd flags = BADCERT_NOT_TRUSTED)
    (hc : s.crts = some offs)
    (hl : lookupCert s offs issuer = none) :
    crtVerifyCallback s env issuer flags =
      { ret := ERR_X509_FATAL_ERROR, flagsOut := flags } := by
  unfold crtVerifyCallback
  rw [if_neg (not_not_intro hm), hc]
  simp only [hl]

/-- C2 counterexample: for the ascending-sorted pairs
`([65], [7]), ([65, 66], [8])` (the first name a proper prefix of the
second), looking up the second name `[65, 66]` finds entry 0 — whose
stored name is `[65]`, not `[65, 66]` — and hands entry 0's key `[7]` to
the signature check (an environment accepting only key `[7]` makes the
callback succeed), refuting the claim that the lookup finds exactly the
entry holding the searched name. -/
theorem lookup_prefix_pair_counterexample :
    lexOrd [65] [65, 66] = Ordering.lt ∧
    init initialStore (encodeBundle [([65], [7]), ([65, 66], [8])]) true =
      (LoadResult.ok, bundleStateOf [([65], [7]), ([65, 66], [8])]) ∧
    lookupCert (bundleStateOf [([65], [7]), ([65, 66], [8])])
      (offsListOf [([65], [7]), ([65, 66], [8])]) [65, 66] = some 0 ∧
    entryName (encodeBundle [([65], [7]), ([65, 66], [8])])
      ((offsListOf [([65], [7]), ([65, 66], [8])]).getD 0 0) = [65] ∧
    crtVerifyCallback (bundleStateOf [([65], [7]), ([65, 66], [8])])
      (fun k => ⟨0, true, 0, if k = [7] then 0 else -1⟩) [65, 66] 8 =
      { ret := 0, flagsOut := 0 } := by
  decide

/-- C2 (amended): for entries with strictly ascending names of which none
is a proper prefix of another, after a successful load, looking up each
name finds exactly its entry and passes exactly that entry's key to the
signature check. -/
theorem lookup_roundtrip_sorted_prefixfree (s : StoreState)
    (es : List (List Nat × List Nat)) (hfit : ∀ e ∈ es, entryFits e)
    (hN : es.length < 65536) (hne : 0 < es.length)
    (hsorted : es.Pairwise (fun a b =>
      lexOrd a.1 b.1 = Ordering.lt ∧ ¬ a.1 <+: b.1))
    (j : Nat) (hj : j < es.length) :
    init s (encodeBundle es) true = (LoadResult.ok, bundleStateOf es) ∧
    lookupCert (bundleStateOf es) (offsListOf es) (es.get ⟨j, hj⟩).1 =
      some j ∧
    entryKey (encodeBundle es) ((offsListOf es).getD j 0) =
      (es.get ⟨j, hj⟩).2 ∧
    ∀ (env : List Nat → CertCheckEnv) (flags : Nat),
      maskBadMd flags = BADCERT_NOT_TRUSTED →
      crtVerifyCallback (bundleStateOf es) env (es.get ⟨j, hj⟩).1 flags =
        if crtCheckCertificate (env ((es.get ⟨j, hj⟩).2)) = 0
        then { ret := 0, flagsOut := 0 }
        else { ret := ERR_X509_FATAL_ERROR, flagsOut := flags } := by
  have hkey : entryKey (encodeBundle es) ((offsListOf es).getD j 0) =
      (es.get ⟨j, hj⟩).2 := by
    unfold offsListOf
    rw [getD_range_map _ _ _ hj]
    have hfacts := encode_entry_facts es (u16Bytes es.length) hfit j hj
    have hp2 : (u16Bytes es.length).length = 2 := by simp [u16Bytes]
    rw [hp2] at hfacts
    rw [show encodeBundle es =
      u16Bytes es.length ++ (es.map encodeEntry).flatten from rfl]
    exact hfacts.2.2.2
  have hlook : lookupCert (bundleStateOf es) (offsListOf es)
      (es.get ⟨j, hj⟩).1 = some j := by
    show bsearchAux
      (entryCompare (encodeBundle es) (offsListOf es) (es.get ⟨j, hj⟩).1)
      (es.length + 1) 0 ((es.length : Int) - 1) = some j
    apply bsearchAux_eq_some
    · exact Nat.zero_le j
    · omega
    · intro i hij
      have hi : i < es.length := Nat.lt_trans hij hj
      rw [entryCompare_encode es hfit _ i hi]
      have hr := (List.pairwise_iff_get.mp hsorted) ⟨i, hi⟩ ⟨j, hj⟩ hij
      exact lexOrd_take_gt _ _ hr.1 hr.2
    · rw [entryCompare_encode es hfit _ j hj, List.take_length]
      exact lexOrd_self _
    · intro i hji hile
      have hi : i < es.length := by omega
      rw [entryCompare_encode es hfit _ i hi]
      have hr := (List.pairwise_iff_get.mp hsorted) ⟨j, hj⟩ ⟨i, hi⟩ hji
      exact lexOrd_take_lt _ _ hr.1
    · omega
  refine ⟨init_encodeBundle_state s es hfit hN hne, hlook, hkey, ?_⟩
  intro env flags hm
  rw [crtVerifyCallback_found (bundleStateOf es) (offsListOf es) env
    (es.get ⟨j, hj⟩).1 flags j hm rfl hlook,
    show (bundleStateOf es).bundleBytes = encodeBundle es from rfl, hkey]

/-- C4 counterexample: in the sorted one-entry bundle holding name `[65]`,
the issuer `[65, 66]` is lexicographically strictly after the last entry's
name, yet the lookup terminates with a match (index 0) and verification
can succeed — not with "not found" and a fatal untrusted-chain return. -/
theorem lookup_after_last_prefix_counterexample :
    lexOrd [65] [65, 66] = Ordering.lt ∧
    init initialStore (encodeBundle [([65], [7])]) true =
      (LoadResult.ok, bundleStateOf [([65], [7])]) ∧
    lookupCert (bundleStateOf [([65], [7])]) (offsListOf [([65], [7])])
      [65, 66] = some 0 ∧
    crtVerifyCallback (bundleStateOf [([65], [7])])
      (fun _ => ⟨0, true, 0, 0⟩) [65, 66] 8 =
      { ret := 0, flagsOut := 0 } := by
  decide

/-- C4 (amended): on a loaded, sorted bundle, an issuer lexicographically
strictly before the first entry's name is not found and draws the fatal
untrusted-chain return; the same holds for an issuer strictly after the
last entry's name provided no entry's stored name is a prefix of the
issuer (without that proviso the truncated comparison can match, as the
counterexample shows). -/
theorem lookup_outside_range_not_found (s : StoreState)
    (es : List (List Nat × List Nat)) (hfit : ∀ e ∈ es, entryFits e)
    (hN : es.length < 65536) (hne : 0 < es.length)
    (hsorted : es.Pairwise (fun a b => lexOrd a.1 b.1 = Ordering.lt))
    (issuer : List Nat) (env : List Nat → CertCheckEnv) (flags : Nat)
    (hm : maskBadMd flags = BADCERT_NOT_TRUSTED) :
    init s (encodeBundle es) true = (LoadResult.ok, bundleStateOf es) ∧
    (lexOrd issuer (es.get ⟨0, hne⟩).1 = Ordering.lt →
      lookupCert (bundleStateOf es) (offsListOf es) issuer = none ∧
      crtVerifyCallback (bundleStateOf es) env issuer flags =
        { ret := ERR_X509_FATAL_ERROR, flagsOut := flags }) ∧
    (lexOrd (es.get ⟨es.length - 1, by omega⟩).1 issuer = Ordering.lt →
      (∀ e ∈ es, ¬ e.1 <+: issuer) →
      lookupCert (bundleStateOf es) (offsListOf es) issuer = none ∧
      crtVerifyCallback (bundleStateOf es) env issuer flags =
        { ret := ERR_X509_FATAL_ERROR, flagsOut := flags }) := by
  refine ⟨init_encodeBundle_state s es hfit hN hne, ?_, ?_⟩
  · intro hfirst
    have hlt_all : ∀ i (hi : i < es.length),
        lexOrd issuer (es.get ⟨i, hi⟩).1 = Ordering.lt := by
      intro i hi
      cases Nat.eq_zero_or_pos i with
      | inl h0 =>
          subst h0
          exact hfirst
      | inr hpos =>
          have hr := (List.pairwise_iff_get.mp hsorted) ⟨0, hne⟩ ⟨i, hi⟩ hpos
          exact lexOrd_trans _ _ _ hfirst hr
    have hnone : lookupCert (bundleStateOf es) (offsListOf es) issuer =
        none := by
      show bsearchAux (entryCompare (encodeBundle es) (offsListOf es) issuer)
        (es.length + 1) 0 ((es.length : Int) - 1) = none
      apply bsearchAux_eq_none_lt _ ((es.length : Int) - 1)
      · intro i hile
        have hi : i < es.length := by omega
        rw [entryCompare_encode es hfit _ i hi]
        exact lexOrd_take_lt _ _ (hlt_all i hi)
      · omega
      · omega
    exact ⟨hnone, crtVerifyCallback_notfound _ _ env issuer flags hm rfl
      hnone⟩
  · intro hlast hnopre
    have hgt_all : ∀ i (hi : i < es.length),
        lexOrd (es.get ⟨i, hi⟩).1 issuer = Ordering.lt := by
      intro i hi
      cases Nat.lt_or_ge i (es.length - 1) with
      | inl hilt =>
          have hr := (List.pairwise_iff_get.mp hsorted)
            (⟨i, hi⟩ : Fin es.length)
            (⟨es.length - 1, by omega⟩ : Fin es.length) hilt
          exact lexOrd_trans _ _ _ hr hlast
      | inr hige =>
          have : i = es.length - 1 := by omega
          subst this
          exact hlast
    have hnone : lookupCert (bundleStateOf es) (offsListOf es) issuer =
        none := by
      show bsearchAux (entryCompare (encodeBundle es) (offsListOf es) issuer)
        (es.length + 1) 0 ((es.length : Int) - 1) = none
      apply bsearchAux_eq_none_gt _ ((es.length : Int) - 1)
      · intro i hile
        have hi : i < es.length := by omega
        rw [entryCompare_encode es hfit _ i hi]
        exact lexOrd_take_gt _ _ (hgt_all i hi)
          (hnopre _ (List.get_mem es i hi))
      · omega
      · omega
    exact ⟨hnone, crtVerifyCallback_notfound _ _ env issuer flags hm rfl
      hnone⟩

/-- Witness for the amended C2 at a concrete sorted prefix-free bundle. -/
theorem lookup_roundtrip_witness :
    init initialStore
        (encodeBundle [([65], [7]), ([66], [8]), ([67], [9])]) true =
      (LoadResult.ok,
       bundleStateOf [([65], [7]), ([66], [8]), ([67], [9])]) ∧
    lookupCert (bundleStateOf [([65], [7]), ([66], [8]), ([67], [9])])
      (offsListOf [([65], [7]), ([66], [8]), ([67], [9])]) [66] =
      some 1 ∧
    entryKey (encodeBundle [([65], [7]), ([66], [8]), ([67], [9])])
      ((offsListOf [([65], [7]), ([66], [8]), ([67], [9])]).getD 1 0) =
      [8] ∧
    crtVerifyCallback (bundleStateOf [([65], [7]), ([66], [8]), ([67], [9])])
      (fun _ => ⟨0, true, 0, 0⟩) [66] 8 = { ret := 0, flagsOut := 0 } := by
  have h := lookup_roundtrip_sorted_prefixfree initialStore
    [([65], [7]), ([66], [8]), ([67], [9])] (by decide) (by decide)
    (by decide) (by decide) 1 (by decide)
  refine ⟨h.1, h.2.1, h.2.2.1, ?_⟩
  exact (h.2.2.2 (fun _ => ⟨0, true, 0, 0⟩) 8 (by decide)).trans (by decide)

/-- Witness for the amended C4: a lookup before the only entry of a
one-entry bundle ends not-found with the fatal return. -/
theorem lookup_outside_range_witness :
    lookupCert (bundleStateOf [([66], [8])]) (offsListOf [([66], [8])])
      [65] = none ∧
    crtVerifyCallback (bundleStateOf [([66], [8])])
      (fun _ => ⟨0, true, 0, 0⟩) [65] 8 =
      { ret := ERR_X509_FATAL_ERROR, flagsOut := 8 } :=
  (lookup_outside_range_not_found initialStore [([66], [8])] (by decide)
    (by decide) (by decide) (by decide) [65] (fun _ => ⟨0, true, 0, 0⟩) 8
    (by decide)).2.1 (by decide)

end X509Bundle
